import Mathlib

/-!
# Underwriting-dashboard discovery / extraction pipeline: a shallow embedding

This file embeds the deal-file discovery and Excel cell-reference extraction
pipeline of the underwriting-dashboard repository and proves the specified
properties about it.

Sources embedded:
* `src/data_processing/file_finder.py` (present in the repository only as the
  compiled module `file_finder.cpython-311.pyc`; the byte-compiled stream was
  damaged by a lossy text re-encoding, but its docstrings, constant pool and
  name tables survive intact and fix the module structure: the functions
  `get_deal_stage_name`, `meets_file_criteria`, `collect_file_metadata`,
  `find_uw_model_folder`, `find_underwriting_files`, the configuration names
  `DEAL_STAGE_DIRS`, `FILE_TYPES`, `FILE_INCLUDES`, `FILE_EXCLUDES`,
  `MIN_MODIFIED_DATE`, every log message, the `"%Y-%m-%d"` date format and the
  `"uw model"` folder-name constant).  Byte-aligning reconstructed sources
  against the surviving marshal skeleton further recovers the decisive
  details: the extension check lower-cases `str(file_path)`, the
  include/exclude checks run case-sensitively over `file_path.name` (their
  generator expressions carry empty name tables, ruling out a `lower()`
  call), the date check excludes on `mod_time < min_date`, and the
  timestamp-error handler ends in `return False`.
* The Excel extraction engine and the column-name reconciliation layer, whose
  Python sources are not present in the repository snapshot (only design
  documents reference them); they are modelled from the specification, as
  flagged on each definition.

Machine conventions: timestamps are seconds since the epoch as `Nat`;
`datetime` values compare by that number; a calendar date is the timestamp's
day index `t / 86400`.  Strings are Lean `String`s and filename tests are over
their character lists; Python's `str.lower` is modelled on the ASCII range,
which covers every configured constant of the program.
-/

/-! ## String primitives (Python `str.lower`, `endswith`, `in`) -/

/-- ASCII lower-casing of one character, as Python's `str.lower` acts on the
ASCII range (code points 65–90 shift to 97–122, everything else unchanged). -/
def lowerChar (c : Char) : Char :=
  if 65 ≤ c.toNat ∧ c.toNat ≤ 90 then Char.ofNat (c.toNat + 32) else c

/-- Python `s.lower()` on a whole string. -/
def lowerStr (s : String) : String :=
  String.mk (s.data.map lowerChar)

/-- Python `s.endswith(t)`: `t` is a suffix of `s`. -/
def strEndsWith (s t : String) : Bool :=
  decide (t.data <:+ s.data)

/-- Python `t in s`: `t` occurs as a contiguous substring of `s`. -/
def strContains (s t : String) : Bool :=
  decide (t.data <:+: s.data)

/-! ## Data model for the Path Criteria Evaluator and the Deal Tree Walker -/

/-- One candidate file as the walker sees it on disk.  `mtime` is
`os.path.getmtime` (seconds since the epoch), `none` when the OS call raises;
`size` is `os.path.getsize`, `none` when that call raises. -/
structure FileEntry where
  name : String
  path : String
  mtime : Option Nat
  size : Option Nat
  deriving Repr, DecidableEq

/-- One directory of the deal tree: its name, absolute path, immediate
subdirectories and the plain files directly inside it (`Path.iterdir`
split by `is_dir`). -/
inductive DirTree where
  | mk (name : String) (path : String) (subdirs : List DirTree)
      (files : List FileEntry)
  deriving Repr

def DirTree.name : DirTree → String
  | .mk n _ _ _ => n

def DirTree.path : DirTree → String
  | .mk _ p _ _ => p

def DirTree.subdirs : DirTree → List DirTree
  | .mk _ _ s _ => s

def DirTree.files : DirTree → List FileEntry
  | .mk _ _ _ f => f

/-- The file-finder configuration (`FILE_TYPES`, `FILE_INCLUDES`,
`FILE_EXCLUDES`, `MIN_MODIFIED_DATE` from `src/config/settings.py`).
`MIN_MODIFIED_DATE` is kept as the day index of the configured `"%Y-%m-%d"`
date; `datetime.strptime(MIN_MODIFIED_DATE, "%Y-%m-%d")` then denotes midnight
of that day, the timestamp `minModifiedDay * 86400`. -/
structure Criteria where
  fileTypes : List String
  fileIncludes : List String
  fileExcludes : List String
  minModifiedDay : Nat
  deriving Repr

/-- The timestamp denoted by `datetime.strptime(MIN_MODIFIED_DATE, "%Y-%m-%d")`:
midnight (00:00:00) of the configured minimum day. -/
def Criteria.minMidnight (cfg : Criteria) : Nat :=
  cfg.minModifiedDay * 86400

/-- The reason logged by `meets_file_criteria` at the early `return False`
sites, one constructor per surviving log-message constant of the module. -/
inductive ExcludeReason where
  | notApprovedType   -- "excluded: Not an approved Excel type"
  | missingInclude    -- "excluded: Missing required text in filename"
  | containsExclude   -- "excluded: Contains excluded text in filename"
  | dateTooOld        -- "excluded: Last modified date too old"
  | dateError         -- "Error checking modified date for ..."
  deriving Repr, DecidableEq

/-- The date check of `meets_file_criteria`:
`mod_time = datetime.fromtimestamp(os.path.getmtime(file_path))` compared with
`min_date = datetime.strptime(MIN_MODIFIED_DATE, "%Y-%m-%d")`; the file passes
when `mod_time` is not before `min_date`.  A raised `OSError` (modelled by
`mtime = none`) lands in the `except` handler, which logs and excludes the
file.  Both details are recoverable from the byte stream (the `<` compare
and the handler's `return False` constant) and agree with the specification
(date ≥ minimum passes; a timestamp error is a date-check failure, not a
crash). -/
def date_check (cfg : Criteria) (mtime : Option Nat) : Bool :=
  match mtime with
  | some t => !(t < cfg.minMidnight)
  | none => false

/-- The function `meets_file_criteria`, instrumented with the reason it would
log: `none` means the file is included, `some r` that it is excluded with log
message `r`.  Structure is the module's (checks in source order, each an early
`return False`):
1. `if not any(str(file_path).lower().endswith(ext) for ext in FILE_TYPES)`
   — the only lower-cased haystack; the code tests the full path string,
   which ends with the filename, so the suffix test is carried here by the
   name component;
2. `file_name = file_path.name` (no `lower()`), then
   `if not all(include in file_name for include in FILE_INCLUDES)` —
   case-sensitive containment in the raw filename;
3. `if any(exclude in file_name for exclude in FILE_EXCLUDES)` —
   case-sensitive as well;
4. the modified-date comparison guarded by `try/except`. -/
def meets_file_criteria_reason (cfg : Criteria) (f : FileEntry) :
    Option ExcludeReason :=
  if !(cfg.fileTypes.any (fun ext => strEndsWith (lowerStr f.name) ext)) then
    some .notApprovedType
  else if !(cfg.fileIncludes.all (fun inc => strContains f.name inc)) then
    some .missingInclude
  else if cfg.fileExcludes.any (fun exc => strContains f.name exc) then
    some .containsExclude
  else
    match f.mtime with
    | some t => if t < cfg.minMidnight then some .dateTooOld else none
    | none => some .dateError

/-- Contract `meets_file_criteria(file_path) -> bool`: `True` iff no check fired. -/
def meets_file_criteria (cfg : Criteria) (f : FileEntry) : Bool :=
  (meets_file_criteria_reason cfg f).isNone

/-! ## Metadata collection and the Deal Tree Walker -/

/-- A value stored in a metadata record: a string field or a number
(timestamp or byte count). -/
inductive MetaValue where
  | str (s : String)
  | num (n : Nat)
  deriving Repr, DecidableEq

/-- A metadata record: the Python dict built by `collect_file_metadata`,
kept as an association list in insertion order. -/
abbrev Metadata := List (String × MetaValue)

/-- Function `get_deal_stage_name(directory_path)`: the name component of the deal
stage directory (e.g. `"0) Dead Deals"`). -/
def get_deal_stage_name (d : DirTree) : String :=
  d.name

/-- The six keys of the dict literal in `collect_file_metadata`, exactly as
they appear in the module's constant pool (space-delimited). -/
def metadataKeys : List String :=
  ["File Name", "Absolute File Path", "Deal Stage Subdirectory Name",
   "Deal Stage Subdirectory Path", "Last Modified Date", "File Size in Bytes"]

/-- Function `collect_file_metadata(file_path, deal_stage_dir)`: reads
`os.path.getmtime` and `os.path.getsize` and returns the six-key dict; the
whole body is wrapped in `try/except`, and an error from either OS call
(modelled by `none` in the entry) logs
`"Error collecting metadata for ..."` and yields the empty dict, modelled
as `none`. -/
def collect_file_metadata (f : FileEntry) (deal_stage_dir : DirTree) :
    Option Metadata :=
  match f.mtime, f.size with
  | some t, some sz =>
      some [("File Name", .str f.name),
            ("Absolute File Path", .str f.path),
            ("Deal Stage Subdirectory Name",
              .str (get_deal_stage_name deal_stage_dir)),
            ("Deal Stage Subdirectory Path", .str deal_stage_dir.path),
            ("Last Modified Date", .num t),
            ("File Size in Bytes", .num sz)]
  | _, _ => none

/-- The folder-name test of `find_uw_model_folder`:
`folder.name.lower() == "uw model"`. -/
def is_uw_model_name (d : DirTree) : Bool :=
  decide (lowerStr d.name = "uw model")

/-- Function `find_uw_model_folder(deal_folder)`: first pass scans the immediate
subdirectories for a name that lower-cases to `"uw model"`; only when that
finds nothing, a second pass scans the subdirectories of each immediate
subdirectory (one level deeper, in order); `None` when both passes fail. -/
def find_uw_model_folder (deal_folder : DirTree) : Option DirTree :=
  match deal_folder.subdirs.find? is_uw_model_name with
  | some d => some d
  | none => (deal_folder.subdirs.flatMap DirTree.subdirs).find? is_uw_model_name

/-- Result of a walk: the two metadata sequences returned by
`find_underwriting_files` plus the per-file error diagnostics it logs. -/
structure WalkResult where
  included : List Metadata
  excluded : List Metadata
  errors : List String
  deriving Repr, DecidableEq

/-- The empty walk result. -/
def WalkResult.empty : WalkResult :=
  ⟨[], [], []⟩

/-- Concatenation of two walk results, componentwise in order. -/
def WalkResult.append (a b : WalkResult) : WalkResult :=
  ⟨a.included ++ b.included, a.excluded ++ b.excluded, a.errors ++ b.errors⟩

/-- The inner file loop of `find_underwriting_files` over the files of a
located UW Model folder: collect metadata (on failure log
`"Could not collect metadata for ..."` and skip the file), then route the
record by `meets_file_criteria`. -/
def process_uw_files (cfg : Criteria) (deal_stage_dir : DirTree) :
    List FileEntry → WalkResult
  | [] => .empty
  | f :: rest =>
    let r := process_uw_files cfg deal_stage_dir rest
    match collect_file_metadata f deal_stage_dir with
    | none => ⟨r.included, r.excluded,
               ("Could not collect metadata for " ++ f.path) :: r.errors⟩
    | some m =>
      if meets_file_criteria cfg f then ⟨m :: r.included, r.excluded, r.errors⟩
      else ⟨r.included, m :: r.excluded, r.errors⟩

/-- The per-deal-folder step of `find_underwriting_files`: locate the UW
Model folder; when there is none the folder is skipped with a debug log
(`"No UW Model folder found in ..."`), contributing nothing. -/
def process_deal_folder (cfg : Criteria) (deal_stage_dir : DirTree)
    (deal_folder : DirTree) : WalkResult :=
  match find_uw_model_folder deal_folder with
  | none => .empty
  | some uw => process_uw_files cfg deal_stage_dir uw.files

/-- One configured deal-stage directory: whether `os.path.exists` holds for
it, and its on-disk tree when it does. -/
structure StageDir where
  existsOnDisk : Bool
  tree : DirTree

/-- The per-stage step of `find_underwriting_files`: a configured stage
directory missing on disk is logged
(`"Deal stage directory does not exist: ..."`) and skipped; otherwise every
immediate subdirectory is processed as a deal folder, in order. -/
def process_deal_stage (cfg : Criteria) (s : StageDir) : WalkResult :=
  if s.existsOnDisk then
    s.tree.subdirs.foldr
      (fun deal acc => (process_deal_folder cfg s.tree deal).append acc) .empty
  else .empty

/-- Function `find_underwriting_files()`: walk the configured deal-stage directories
in order and return the included and excluded metadata sequences (with the
error diagnostics logged along the way). -/
def find_underwriting_files (cfg : Criteria) : List StageDir → WalkResult
  | [] => .empty
  | s :: rest =>
      (process_deal_stage cfg s).append (find_underwriting_files cfg rest)

/-! ## Extraction Engine (modelled from the spec) -/

/-- Modelled from the spec: the expected-type hint column of the Cell
Reference Table (`src/data_processing/excel_reader.py` is absent from the
repository snapshot). -/
inductive TypeHint where
  | text
  | number
  | date
  | unspecified
  deriving Repr, DecidableEq

/-- Modelled from the spec: the closed tagged union of extracted cell
values, `{Text, Number, Date, Missing}`. -/
inductive CellValue where
  | text (s : String)
  | number (q : Int)
  | date (d : Nat)
  | missing
  deriving Repr, DecidableEq

/-- Modelled from the spec: a raw spreadsheet cell as the workbook library
hands it over, before the explicit coercion step. -/
inductive RawCell where
  | rawStr (s : String)
  | rawNum (q : Int)
  | rawDate (d : Nat)
  deriving Repr, DecidableEq

/-- Modelled from the spec: an opened workbook, as the mapping
sheet name ↦ (cell coordinate ↦ raw value); a coordinate absent from its
sheet is an empty cell. -/
structure Workbook where
  sheets : List (String × List (String × RawCell))
  deriving Repr

/-- Modelled from the spec: one row of the Cell Reference Table — logical
field name, target sheet name, target cell coordinate, expected type. -/
structure CellReferenceEntry where
  field : String
  sheet : String
  cell : String
  hint : TypeHint
  deriving Repr, DecidableEq

/-- Association-list lookup by key (Python `dict.get` semantics: first
binding wins). -/
def lookupAssoc {α : Type} : List (String × α) → String → Option α
  | [], _ => none
  | (k, v) :: rest, x => if x = k then some v else lookupAssoc rest x

/-- Modelled from the spec: coerce one raw cell value under the entry's type
hint.  The boolean flags a type-mismatch diagnostic: text found where a
number was expected is kept as text rather than raised or dropped. -/
def coerce_cell (hint : TypeHint) (raw : RawCell) : CellValue × Bool :=
  match raw, hint with
  | .rawStr s, .number => (.text s, true)
  | .rawStr s, _ => (.text s, false)
  | .rawNum q, _ => (.number q, false)
  | .rawDate d, _ => (.date d, false)

/-- Modelled from the spec: resolve one reference-table entry against an
opened workbook.  A sheet name absent from the workbook records `missing`
(and continues); an empty cell records `missing`; otherwise the raw value is
coerced under the hint. -/
def extract_field (wb : Workbook) (e : CellReferenceEntry) :
    CellValue × Bool :=
  match lookupAssoc wb.sheets e.sheet with
  | none => (.missing, false)
  | some cells =>
    match lookupAssoc cells e.cell with
    | none => (.missing, false)
    | some raw => coerce_cell e.hint raw

/-- Modelled from the spec: one successfully processed file's flat record —
every reference-table field paired with its extracted value, in table order,
plus the side list of type-mismatch diagnostics. -/
structure ExtractionRecord where
  values : List (String × CellValue)
  mismatches : List String
  deriving Repr, DecidableEq

/-- Modelled from the spec: `extract(file, referenceTable)` over an opened
workbook — resolve every table entry, never raising for a missing sheet or
empty cell. -/
def extract (wb : Workbook) (table : List CellReferenceEntry) :
    ExtractionRecord :=
  { values := table.map (fun e => (e.field, (extract_field wb e).1)),
    mismatches :=
      (table.filter (fun e => (extract_field wb e).2)).map
        CellReferenceEntry.field }

/-- Modelled from the spec: the outcome of trying to open one batch file's
workbook — opened, or failed with the underlying cause (corrupt,
unsupported format, locked, or timed out). -/
inductive OpenOutcome where
  | opened (wb : Workbook)
  | failed (cause : String)

/-- Modelled from the spec: one input of a batch extraction — the file's
identity and what opening its workbook yields. -/
structure BatchFile where
  path : String
  outcome : OpenOutcome

/-- Modelled from the spec: a per-file failure report carrying the file
identity and the underlying cause. -/
structure ExtractionFailure where
  path : String
  cause : String
  deriving Repr, DecidableEq

/-- Modelled from the spec: batch extraction over independent files —
successes and failures are aggregated separately, each outcome keyed by its
file, and no failure aborts the remaining files. -/
def batch_extract (table : List CellReferenceEntry) :
    List BatchFile → List (String × ExtractionRecord) × List ExtractionFailure
  | [] => ([], [])
  | bf :: rest =>
    let r := batch_extract table rest
    match bf.outcome with
    | .opened wb => ((bf.path, extract wb table) :: r.1, r.2)
    | .failed cause => (r.1, ⟨bf.path, cause⟩ :: r.2)

/-! ## Column Reconciliation Layer (modelled from the spec) -/

/-- Modelled from the spec and `DATABASE_IMPROVEMENTS.md` (the fix module
`src/dashboard/utils/data_processing_fix.py` is absent from the repository
snapshot): the fixed, explicit lookup table between canonical
(space-delimited) column names and persistence (underscore-delimited) column
names, special-casing the database's documented historical misspelling
`"Propety"` for `"Property"`. -/
def column_name_map : List (String × String) :=
  [("Property Name", "propety_name"),
   ("File Name", "file_name"),
   ("Absolute File Path", "absolute_file_path"),
   ("Deal Stage Subdirectory Name", "deal_stage_subdirectory_name"),
   ("Deal Stage Subdirectory Path", "deal_stage_subdirectory_path"),
   ("Last Modified Date", "last_modified_date"),
   ("File Size in Bytes", "file_size_in_bytes"),
   ("Year Built", "year_built")]

/-- Whitespace characters replaced by underscores in the generic fallback
transform. -/
def isWsChar (c : Char) : Bool :=
  decide (c = ' ' ∨ c = '\t' ∨ c = '\n' ∨ c = '\r')

/-- Characters the generic fallback transform keeps: ASCII alphanumerics and
the underscore. -/
def keepChar (c : Char) : Bool :=
  decide ((48 ≤ c.toNat ∧ c.toNat ≤ 57) ∨ (65 ≤ c.toNat ∧ c.toNat ≤ 90) ∨
          (97 ≤ c.toNat ∧ c.toNat ≤ 122) ∨ c = '_')

/-- Modelled from the spec: the generic fallback transform for a name not in
the explicit table — lower-case, replace whitespace with underscores, strip
every non-alphanumeric character other than the underscore. -/
def to_storage_fallback (s : String) : String :=
  String.mk (((s.data.map lowerChar).map
    (fun c => if isWsChar c then '_' else c)).filter keepChar)

/-- Modelled from the spec: `to_storage_name(canonical) -> storage_name` —
the explicit table first, the generic transform as fallback. -/
def to_storage_name (x : String) : String :=
  match lookupAssoc column_name_map x with
  | some v => v
  | none => to_storage_fallback x

/-- Reverse association-list lookup, by second component. -/
def lookupByValue : List (String × String) → String → Option String
  | [], _ => none
  | (k, v) :: rest, y => if y = v then some k else lookupByValue rest y

/-- Modelled from the spec: `to_canonical_name(storage_name) -> canonical` —
the explicit table in the reverse direction; the spec fixes no fallback for
this direction, so a name outside the table is returned unchanged. -/
def to_canonical_name (y : String) : String :=
  match lookupByValue column_name_map y with
  | some k => k
  | none => y

/-! ## Specification-side predicates for the Path Criteria Evaluator -/

/-- Spec rule (a): the lower-cased filename ends with one of the configured
allowed extensions. -/
def specExtensionOk (cfg : Criteria) (f : FileEntry) : Prop :=
  ∃ ext ∈ cfg.fileTypes, ext.data <:+ (lowerStr f.name).data

/-- Spec rule (b): the filename contains every configured required
include-substring (case-sensitively, on the raw filename, as in the code). -/
def specIncludesOk (cfg : Criteria) (f : FileEntry) : Prop :=
  ∀ inc ∈ cfg.fileIncludes, inc.data <:+: f.name.data

/-- Spec rule (c): the filename contains none of the configured
exclude-substrings (case-sensitively, on the raw filename, as in the code). -/
def specExcludesOk (cfg : Criteria) (f : FileEntry) : Prop :=
  ∀ exc ∈ cfg.fileExcludes, ¬ exc.data <:+: f.name.data

/-- Spec rule (d): the last-modified timestamp was read successfully and is
at least the configured minimum date (its midnight timestamp). -/
def specDateOk (cfg : Criteria) (f : FileEntry) : Prop :=
  ∃ t, f.mtime = some t ∧ cfg.minMidnight ≤ t

instance (cfg : Criteria) (f : FileEntry) : Decidable (specExtensionOk cfg f) := by
  unfold specExtensionOk
  infer_instance

instance (cfg : Criteria) (f : FileEntry) : Decidable (specIncludesOk cfg f) := by
  unfold specIncludesOk
  infer_instance

instance (cfg : Criteria) (f : FileEntry) : Decidable (specExcludesOk cfg f) := by
  unfold specExcludesOk
  infer_instance

theorem extension_any_iff (cfg : Criteria) (f : FileEntry) :
    (cfg.fileTypes.any fun ext => strEndsWith (lowerStr f.name) ext) = true ↔
      specExtensionOk cfg f := by
  simp [specExtensionOk, strEndsWith, List.any_eq_true]

theorem includes_all_iff (cfg : Criteria) (f : FileEntry) :
    (cfg.fileIncludes.all fun inc => strContains f.name inc) = true ↔
      specIncludesOk cfg f := by
  simp [specIncludesOk, strContains, List.all_eq_true]

theorem excludes_any_iff (cfg : Criteria) (f : FileEntry) :
    (cfg.fileExcludes.any fun exc => strContains f.name exc) = false ↔
      specExcludesOk cfg f := by
  simp [specExcludesOk, strContains, List.any_eq_false]

theorem reason_none_iff (cfg : Criteria) (f : FileEntry) :
    meets_file_criteria_reason cfg f = none ↔
      specExtensionOk cfg f ∧ specIncludesOk cfg f ∧ specExcludesOk cfg f ∧
        specDateOk cfg f := by
  unfold meets_file_criteria_reason
  rcases h1 : (cfg.fileTypes.any fun ext => strEndsWith (lowerStr f.name) ext) with _ | _
  · simp [← extension_any_iff cfg f, h1]
  · rcases h2 : (cfg.fileIncludes.all fun inc => strContains f.name inc) with _ | _
    · simp [← extension_any_iff cfg f, h1, ← includes_all_iff cfg f, h2]
    · rcases h3 : (cfg.fileExcludes.any fun exc => strContains f.name exc) with _ | _
      · rcases hm : f.mtime with _ | t
        · simp [← extension_any_iff cfg f, h1, ← includes_all_iff cfg f, h2,
                ← excludes_any_iff cfg f, h3, specDateOk, hm]
        · by_cases hd : t < cfg.minMidnight
          · simp [← extension_any_iff cfg f, h1, ← includes_all_iff cfg f, h2,
                  ← excludes_any_iff cfg f, h3, specDateOk, hm, hd]
          · simp [← extension_any_iff cfg f, h1, ← includes_all_iff cfg f, h2,
                  ← excludes_any_iff cfg f, h3, specDateOk, hm, hd]
            omega
      · simp [← extension_any_iff cfg f, h1, ← includes_all_iff cfg f, h2,
              ← excludes_any_iff cfg f, h3]

/-- C1: a file is included iff it passes all four rules — allowed extension
(case-insensitive suffix), every required include-substring present, no
exclude-substring present, and last-modified date at or after the configured
minimum; in particular a file whose extension is not allowed is excluded
regardless of its other attributes. -/
theorem pathCriteria_inclusion_iff (cfg : Criteria) (f : FileEntry) :
    (meets_file_criteria cfg f = true ↔
      specExtensionOk cfg f ∧ specIncludesOk cfg f ∧ specExcludesOk cfg f ∧
        specDateOk cfg f) ∧
    (¬ specExtensionOk cfg f → meets_file_criteria cfg f = false) := by
  constructor
  · rw [meets_file_criteria, Option.isNone_iff_eq_none, reason_none_iff]
  · intro hext
    rcases h : meets_file_criteria cfg f with _ | _
    · rfl
    · exact absurd ((reason_none_iff cfg f).mp
        (Option.isNone_iff_eq_none.mp h)).1 hext

/-- Sample configuration: allowed extension `.xlsb`, required substring
`"UW"`, excluded substring `"old"`, minimum date at day index 20000. -/
def sampleCfg : Criteria :=
  ⟨[".xlsb"], ["UW"], ["old"], 20000⟩

/-- A sample file with a disallowed extension but every other attribute
passing. -/
def fileBadExt : FileEntry :=
  ⟨"UW Model.txt", "/deals/a/UW Model.txt", some (20000 * 86400 + 3600),
   some 100⟩

theorem pathCriteria_inclusion_iff_witness :
    meets_file_criteria sampleCfg fileBadExt = false :=
  (pathCriteria_inclusion_iff sampleCfg fileBadExt).2 (by decide)

/-- C2: the four checks run in the fixed order extension, include, exclude,
date, short-circuiting on the first failure, which determines the logged
exclusion reason; an error reading the last-modified timestamp is treated as
a date-check failure (exclusion), not a raised exception. -/
theorem pathCriteria_order_shortCircuit (cfg : Criteria) (f : FileEntry) :
    (¬ specExtensionOk cfg f →
      meets_file_criteria_reason cfg f = some .notApprovedType) ∧
    (specExtensionOk cfg f → ¬ specIncludesOk cfg f →
      meets_file_criteria_reason cfg f = some .missingInclude) ∧
    (specExtensionOk cfg f → specIncludesOk cfg f → ¬ specExcludesOk cfg f →
      meets_file_criteria_reason cfg f = some .containsExclude) ∧
    (specExtensionOk cfg f → specIncludesOk cfg f → specExcludesOk cfg f →
      ∀ t, f.mtime = some t → t < cfg.minMidnight →
      meets_file_criteria_reason cfg f = some .dateTooOld) ∧
    (specExtensionOk cfg f → specIncludesOk cfg f → specExcludesOk cfg f →
      f.mtime = none →
      meets_file_criteria_reason cfg f = some .dateError ∧
      meets_file_criteria cfg f = false) := by
  refine ⟨?_, ?_, ?_, ?_, ?_⟩
  · intro h
    have h1 : (cfg.fileTypes.any fun ext => strEndsWith (lowerStr f.name) ext)
        = false :=
      Bool.eq_false_iff.mpr fun hb => h ((extension_any_iff cfg f).mp hb)
    unfold meets_file_criteria_reason
    simp [h1]
  · intro hx h
    have h1 := (extension_any_iff cfg f).mpr hx
    have h2 : (cfg.fileIncludes.all fun inc => strContains f.name inc)
        = false :=
      Bool.eq_false_iff.mpr fun hb => h ((includes_all_iff cfg f).mp hb)
    unfold meets_file_criteria_reason
    simp [h1, h2]
  · intro hx hi h
    have h1 := (extension_any_iff cfg f).mpr hx
    have h2 := (includes_all_iff cfg f).mpr hi
    have h3 : (cfg.fileExcludes.any fun exc => strContains f.name exc)
        = true := by
      rcases hb : (cfg.fileExcludes.any fun exc =>
          strContains f.name exc) with _ | _
      · exact absurd ((excludes_any_iff cfg f).mp hb) h
      · rfl
    unfold meets_file_criteria_reason
    simp [h1, h2, h3]
  · intro hx hi he t ht hlt
    have h1 := (extension_any_iff cfg f).mpr hx
    have h2 := (includes_all_iff cfg f).mpr hi
    have h3 := (excludes_any_iff cfg f).mpr he
    unfold meets_file_criteria_reason
    simp [h1, h2, h3, ht, hlt]
  · intro hx hi he hm
    have h1 := (extension_any_iff cfg f).mpr hx
    have h2 := (includes_all_iff cfg f).mpr hi
    have h3 := (excludes_any_iff cfg f).mpr he
    constructor
    · unfold meets_file_criteria_reason
      simp [h1, h2, h3, hm]
    · unfold meets_file_criteria meets_file_criteria_reason
      simp [h1, h2, h3, hm]

/-- A sample file whose name passes every filename rule but whose
last-modified timestamp cannot be read. -/
def fileMtimeError : FileEntry :=
  ⟨"UW Model.xlsb", "/deals/a/UW Model.xlsb", none, some 100⟩

/-- A sample file passing extension and include checks but carrying an
excluded substring. -/
def fileExcluded : FileEntry :=
  ⟨"UW Model old.xlsb", "/deals/a/UW Model old.xlsb",
   some (20000 * 86400), some 100⟩

theorem pathCriteria_order_shortCircuit_witness :
    meets_file_criteria_reason sampleCfg fileBadExt
        = some ExcludeReason.notApprovedType ∧
      meets_file_criteria_reason sampleCfg fileExcluded
        = some ExcludeReason.containsExclude ∧
      meets_file_criteria_reason sampleCfg fileMtimeError
        = some ExcludeReason.dateError ∧
      meets_file_criteria sampleCfg fileMtimeError = false :=
  ⟨(pathCriteria_order_shortCircuit sampleCfg fileBadExt).1 (by decide),
   (pathCriteria_order_shortCircuit sampleCfg fileExcluded).2.2.1 (by decide)
     (by decide) (by decide),
   ((pathCriteria_order_shortCircuit sampleCfg fileMtimeError).2.2.2.2
     (by decide) (by decide) (by decide) rfl).1,
   ((pathCriteria_order_shortCircuit sampleCfg fileMtimeError).2.2.2.2
     (by decide) (by decide) (by decide) rfl).2⟩

/-- C10: the date criterion's boundary is inclusive at midnight — the
configured `"%Y-%m-%d"` minimum parses to midnight of that day, the file's
full last-modified timestamp is compared against it, so a file modified at
any second of the minimum day passes; equivalently, the check passes exactly
when the file's calendar day is at least the minimum day.  When the three
filename rules pass, the evaluator's verdict is exactly this date check. -/
theorem dateCheck_midnight_inclusive (cfg : Criteria) (f : FileEntry)
    (t s : Nat) :
    (s < 86400 → date_check cfg (some (cfg.minModifiedDay * 86400 + s)) = true) ∧
    (date_check cfg (some t) = true ↔ cfg.minModifiedDay ≤ t / 86400) ∧
    (specExtensionOk cfg f → specIncludesOk cfg f → specExcludesOk cfg f →
      meets_file_criteria cfg f = date_check cfg f.mtime) := by
  refine ⟨?_, ?_, ?_⟩
  · intro _
    simp [date_check, Criteria.minMidnight]
  · simp only [date_check, Criteria.minMidnight, Bool.not_eq_true',
      decide_eq_false_iff_not, Nat.not_lt]
    constructor
    · intro h
      omega
    · intro h
      calc cfg.minModifiedDay * 86400 ≤ (t / 86400) * 86400 :=
            Nat.mul_le_mul_right _ h
        _ ≤ t := Nat.div_mul_le_self t 86400
  · intro hx hi he
    have h1 := (extension_any_iff cfg f).mpr hx
    have h2 := (includes_all_iff cfg f).mpr hi
    have h3 := (excludes_any_iff cfg f).mpr he
    unfold meets_file_criteria meets_file_criteria_reason date_check
    rcases hm : f.mtime with _ | u
    · simp [h1, h2, h3]
    · by_cases hd : u < cfg.minMidnight
      · simp [h1, h2, h3, hd]
      · simp [h1, h2, h3, hd]

theorem dateCheck_midnight_inclusive_witness :
    date_check sampleCfg (some (20000 * 86400 + 86399)) = true ∧
      (date_check sampleCfg (some (20000 * 86400 + 100)) = true ↔
        20000 ≤ (20000 * 86400 + 100) / 86400) :=
  ⟨(dateCheck_midnight_inclusive sampleCfg fileBadExt 0 86399).1 (by decide),
   (dateCheck_midnight_inclusive sampleCfg fileBadExt
     (20000 * 86400 + 100) 0).2.1⟩

/-! ## The two-pass UW Model folder search -/

/-- Spec-side folder-name predicate: the directory's name case-insensitively
equals `"uw model"`. -/
def specUwName (d : DirTree) : Prop :=
  lowerStr d.name = "uw model"

instance (d : DirTree) : Decidable (specUwName d) := by
  unfold specUwName
  infer_instance

theorem is_uw_model_name_iff (d : DirTree) :
    is_uw_model_name d = true ↔ specUwName d := by
  simp [is_uw_model_name, specUwName]

/-- C3: the walker locates the model folder by a two-pass search — an
immediate child named "uw model" (case-insensitively) wins; only when no
immediate child matches is the search taken one level deeper; and a deal
folder with no match at either depth contributes an empty result (no
included files, no excluded files, no recorded error). -/
theorem uwModelFolder_twoPass (cfg : Criteria) (stage deal : DirTree) :
    ((∃ d ∈ deal.subdirs, specUwName d) →
      ∃ d, find_uw_model_folder deal = some d ∧ d ∈ deal.subdirs ∧
        specUwName d) ∧
    ((∀ d ∈ deal.subdirs, ¬ specUwName d) →
      (∃ e ∈ deal.subdirs.flatMap DirTree.subdirs, specUwName e) →
      ∃ e, find_uw_model_folder deal = some e ∧
        e ∈ deal.subdirs.flatMap DirTree.subdirs ∧ specUwName e) ∧
    ((∀ d ∈ deal.subdirs, ¬ specUwName d) →
      (∀ e ∈ deal.subdirs.flatMap DirTree.subdirs, ¬ specUwName e) →
      find_uw_model_folder deal = none ∧
      process_deal_folder cfg stage deal = WalkResult.empty) := by
  refine ⟨?_, ?_, ?_⟩
  · intro h
    have hs : (deal.subdirs.find? is_uw_model_name).isSome := by
      rw [List.find?_isSome]
      obtain ⟨d, hd, hp⟩ := h
      exact ⟨d, hd, (is_uw_model_name_iff d).mpr hp⟩
    obtain ⟨d, hd⟩ := Option.isSome_iff_exists.mp hs
    refine ⟨d, ?_, List.mem_of_find?_eq_some hd,
      (is_uw_model_name_iff d).mp (List.find?_some hd)⟩
    unfold find_uw_model_folder
    rw [hd]
  · intro h1 h2
    have hn : deal.subdirs.find? is_uw_model_name = none := by
      rw [List.find?_eq_none]
      intro d hd
      simp [is_uw_model_name_iff d, h1 d hd]
    have hs : ((deal.subdirs.flatMap DirTree.subdirs).find?
        is_uw_model_name).isSome := by
      rw [List.find?_isSome]
      obtain ⟨e, he, hp⟩ := h2
      exact ⟨e, he, (is_uw_model_name_iff e).mpr hp⟩
    obtain ⟨e, he⟩ := Option.isSome_iff_exists.mp hs
    refine ⟨e, ?_, List.mem_of_find?_eq_some he,
      (is_uw_model_name_iff e).mp (List.find?_some he)⟩
    unfold find_uw_model_folder
    rw [hn, he]
  · intro h1 h2
    have hn : deal.subdirs.find? is_uw_model_name = none := by
      rw [List.find?_eq_none]
      intro d hd
      simp [is_uw_model_name_iff d, h1 d hd]
    have hn2 : (deal.subdirs.flatMap DirTree.subdirs).find?
        is_uw_model_name = none := by
      rw [List.find?_eq_none]
      intro e he
      simp [is_uw_model_name_iff e, h2 e he]
    have hfind : find_uw_model_folder deal = none := by
      unfold find_uw_model_folder
      rw [hn, hn2]
    refine ⟨hfind, ?_⟩
    unfold process_deal_folder
    rw [hfind]

/-- A deal folder holding its model folder one level deep
(`Deal B/Models/UW Model`). -/
def dealDeepUw : DirTree :=
  .mk "Deal B" "/stage/Deal B"
    [.mk "Models" "/stage/Deal B/Models"
      [.mk "UW Model" "/stage/Deal B/Models/UW Model" [] [fileMtimeError]] []]
    []

/-- A deal folder with no UW Model folder at either depth. -/
def dealNoUw : DirTree :=
  .mk "Deal C" "/stage/Deal C"
    [.mk "NotesOnly" "/stage/Deal C/NotesOnly"
      [.mk "Archive" "/stage/Deal C/Archive" [] []] []]
    []

/-- A stage directory node used as walker context in witnesses. -/
def sampleStage : DirTree :=
  .mk "Active Review" "/deals/Active Review" [] []

theorem uwModelFolder_twoPass_witness :
    (∃ e, find_uw_model_folder dealDeepUw = some e ∧
      e ∈ dealDeepUw.subdirs.flatMap DirTree.subdirs ∧ specUwName e) ∧
    find_uw_model_folder dealNoUw = none ∧
    process_deal_folder sampleCfg sampleStage dealNoUw = WalkResult.empty :=
  ⟨(uwModelFolder_twoPass sampleCfg sampleStage dealDeepUw).2.1
      (by decide) (by decide),
   (uwModelFolder_twoPass sampleCfg sampleStage dealNoUw).2.2
      (by decide) (by decide)⟩

/-! ## Walker error handling -/

theorem WalkResult.empty_append (r : WalkResult) :
    WalkResult.empty.append r = r := by
  simp [WalkResult.append, WalkResult.empty]

theorem find_underwriting_files_cons (cfg : Criteria) (s : StageDir)
    (rest : List StageDir) :
    find_underwriting_files cfg (s :: rest) =
      (process_deal_stage cfg s).append (find_underwriting_files cfg rest) :=
  rfl

theorem process_uw_files_cons (cfg : Criteria) (stage : DirTree)
    (f : FileEntry) (rest : List FileEntry) :
    process_uw_files cfg stage (f :: rest) =
      match collect_file_metadata f stage with
      | none =>
        ⟨(process_uw_files cfg stage rest).included,
         (process_uw_files cfg stage rest).excluded,
         ("Could not collect metadata for " ++ f.path) ::
           (process_uw_files cfg stage rest).errors⟩
      | some m =>
        if meets_file_criteria cfg f then
          ⟨m :: (process_uw_files cfg stage rest).included,
           (process_uw_files cfg stage rest).excluded,
           (process_uw_files cfg stage rest).errors⟩
        else
          ⟨(process_uw_files cfg stage rest).included,
           m :: (process_uw_files cfg stage rest).excluded,
           (process_uw_files cfg stage rest).errors⟩ :=
  rfl

/-- C6: the directory walk never aborts for a single bad entry — a
configured deal-stage directory missing on disk is skipped and the walk's
result is exactly that of the remaining configuration, and a file whose
metadata collection fails is skipped (it appears in neither the included nor
the excluded sequence, with a diagnostic recorded) while every sibling file
is still processed. -/
theorem walker_skips_bad_entries (cfg : Criteria) (stage : DirTree)
    (s : StageDir) (pre post : List StageDir) (f : FileEntry)
    (fpre fpost : List FileEntry) :
    (s.existsOnDisk = false →
      find_underwriting_files cfg (pre ++ s :: post) =
        find_underwriting_files cfg (pre ++ post)) ∧
    (collect_file_metadata f stage = none →
      (process_uw_files cfg stage (fpre ++ f :: fpost)).included =
          (process_uw_files cfg stage (fpre ++ fpost)).included ∧
        (process_uw_files cfg stage (fpre ++ f :: fpost)).excluded =
          (process_uw_files cfg stage (fpre ++ fpost)).excluded ∧
        ("Could not collect metadata for " ++ f.path) ∈
          (process_uw_files cfg stage (fpre ++ f :: fpost)).errors) := by
  constructor
  · intro hex
    induction pre with
    | nil =>
      simp only [List.nil_append]
      rw [find_underwriting_files_cons]
      unfold process_deal_stage
      rw [hex]
      simp [WalkResult.empty_append]
    | cons head tail ih =>
      simp only [List.cons_append]
      rw [find_underwriting_files_cons, find_underwriting_files_cons, ih]
  · intro hc
    induction fpre with
    | nil =>
      simp only [List.nil_append]
      rw [process_uw_files_cons, hc]
      exact ⟨rfl, rfl, List.mem_cons_self _ _⟩
    | cons g tail ih =>
      obtain ⟨ih1, ih2, ih3⟩ := ih
      simp only [List.cons_append]
      rw [process_uw_files_cons, process_uw_files_cons]
      rcases hg : collect_file_metadata g stage with _ | m
      · exact ⟨ih1, ih2, List.mem_cons_of_mem _ ih3⟩
      · rcases hq : meets_file_criteria cfg g with _ | _
        · simp only [Bool.false_eq_true, if_false]
          exact ⟨ih1, by simp [ih2], ih3⟩
        · simp only [if_true]
          exact ⟨by simp [ih1], ih2, ih3⟩

/-- A file passing every criterion. -/
def goodFile : FileEntry :=
  ⟨"UW Model.xlsb", "/deals/a/UW Model.xlsb", some (20000 * 86400 + 10),
   some 1234⟩

/-- A configured deal-stage directory that does not exist on disk. -/
def stageMissing : StageDir :=
  ⟨false, .mk "0) Dead Deals" "/deals/0) Dead Deals" [] []⟩

/-- A configured deal-stage directory with one deal whose UW Model folder
holds one passing file. -/
def stageOk : StageDir :=
  ⟨true, .mk "Active Review" "/deals/Active Review"
    [.mk "Deal A" "/deals/Active Review/Deal A"
      [.mk "UW Model" "/deals/Active Review/Deal A/UW Model" [] [goodFile]]
      []]
    []⟩

theorem walker_skips_bad_entries_witness :
    (find_underwriting_files sampleCfg ([] ++ stageMissing :: [stageOk]) =
      find_underwriting_files sampleCfg ([] ++ [stageOk])) ∧
    (process_uw_files sampleCfg stageOk.tree
          ([goodFile] ++ fileMtimeError :: [])).included =
        (process_uw_files sampleCfg stageOk.tree
          ([goodFile] ++ [])).included ∧
      (process_uw_files sampleCfg stageOk.tree
          ([goodFile] ++ fileMtimeError :: [])).excluded =
        (process_uw_files sampleCfg stageOk.tree
          ([goodFile] ++ [])).excluded ∧
      ("Could not collect metadata for " ++ fileMtimeError.path) ∈
        (process_uw_files sampleCfg stageOk.tree
          ([goodFile] ++ fileMtimeError :: [])).errors :=
  ⟨(walker_skips_bad_entries sampleCfg stageOk.tree stageMissing []
      [stageOk] fileMtimeError [goodFile] []).1 rfl,
   (walker_skips_bad_entries sampleCfg stageOk.tree stageMissing []
      [stageOk] fileMtimeError [goodFile] []).2 rfl⟩

/-! ## The metadata-key invariant of the walker -/

/-- Every record in both output sequences carries exactly the six
`collect_file_metadata` keys. -/
def keysOnly (r : WalkResult) : Prop :=
  (∀ m ∈ r.included, m.map Prod.fst = metadataKeys) ∧
  (∀ m ∈ r.excluded, m.map Prod.fst = metadataKeys)

theorem keysOnly_empty : keysOnly WalkResult.empty := by
  simp [keysOnly, WalkResult.empty]

theorem keysOnly_append {a b : WalkResult} (ha : keysOnly a)
    (hb : keysOnly b) : keysOnly (a.append b) := by
  obtain ⟨ha1, ha2⟩ := ha
  obtain ⟨hb1, hb2⟩ := hb
  constructor
  · intro m hm
    rcases List.mem_append.mp hm with h | h
    · exact ha1 m h
    · exact hb1 m h
  · intro m hm
    rcases List.mem_append.mp hm with h | h
    · exact ha2 m h
    · exact hb2 m h

theorem collect_file_metadata_keys (f : FileEntry) (stage : DirTree)
    (m : Metadata) (h : collect_file_metadata f stage = some m) :
    m.map Prod.fst = metadataKeys := by
  unfold collect_file_metadata at h
  rcases ht : f.mtime with _ | t <;> rcases hs : f.size with _ | sz <;>
    rw [ht, hs] at h
  · simp at h
  · simp at h
  · simp at h
  · simp only [Option.some.injEq] at h
    subst h
    rfl

theorem keysOnly_process_uw_files (cfg : Criteria) (stage : DirTree) :
    ∀ files : List FileEntry, keysOnly (process_uw_files cfg stage files) := by
  intro files
  induction files with
  | nil => exact keysOnly_empty
  | cons f rest ih =>
    obtain ⟨ih1, ih2⟩ := ih
    rw [process_uw_files_cons]
    rcases hc : collect_file_metadata f stage with _ | m
    · exact ⟨ih1, ih2⟩
    · rcases hq : meets_file_criteria cfg f with _ | _
      · simp only [Bool.false_eq_true, if_false]
        refine ⟨ih1, ?_⟩
        intro x hx
        rcases List.mem_cons.mp hx with h | h
        · exact h ▸ collect_file_metadata_keys f stage m hc
        · exact ih2 x h
      · simp only [if_true]
        refine ⟨?_, ih2⟩
        intro x hx
        rcases List.mem_cons.mp hx with h | h
        · exact h ▸ collect_file_metadata_keys f stage m hc
        · exact ih1 x h

theorem keysOnly_process_deal_folder (cfg : Criteria) (stage deal : DirTree) :
    keysOnly (process_deal_folder cfg stage deal) := by
  unfold process_deal_folder
  rcases find_uw_model_folder deal with _ | uw
  · exact keysOnly_empty
  · exact keysOnly_process_uw_files cfg stage uw.files

theorem keysOnly_process_deal_stage (cfg : Criteria) (s : StageDir) :
    keysOnly (process_deal_stage cfg s) := by
  unfold process_deal_stage
  rcases s.existsOnDisk with _ | _
  · exact keysOnly_empty
  · simp only [if_true]
    induction s.tree.subdirs with
    | nil => exact keysOnly_empty
    | cons d ds ih =>
      exact keysOnly_append (keysOnly_process_deal_folder cfg s.tree d) ih

theorem keysOnly_find (cfg : Criteria) (stages : List StageDir) :
    keysOnly (find_underwriting_files cfg stages) := by
  induction stages with
  | nil => exact keysOnly_empty
  | cons s rest ih =>
    rw [find_underwriting_files_cons]
    exact keysOnly_append (keysOnly_process_deal_stage cfg s) ih

/-- C9: every record the walker emits, included or excluded alike, contains
exactly the six space-delimited metadata keys produced by
`collect_file_metadata`, in order. -/
theorem walker_metadata_keys (cfg : Criteria) (stages : List StageDir)
    (m : Metadata)
    (h : m ∈ (find_underwriting_files cfg stages).included ∨
      m ∈ (find_underwriting_files cfg stages).excluded) :
    m.map Prod.fst = metadataKeys := by
  rcases h with h | h
  · exact (keysOnly_find cfg stages).1 m h
  · exact (keysOnly_find cfg stages).2 m h

/-- The metadata record the walker emits for `goodFile` under `stageOk`. -/
def goodFileRecord : Metadata :=
  [("File Name", .str "UW Model.xlsb"),
   ("Absolute File Path", .str "/deals/a/UW Model.xlsb"),
   ("Deal Stage Subdirectory Name", .str "Active Review"),
   ("Deal Stage Subdirectory Path", .str "/deals/Active Review"),
   ("Last Modified Date", .num (20000 * 86400 + 10)),
   ("File Size in Bytes", .num 1234)]

theorem walker_metadata_keys_witness :
    goodFileRecord.map Prod.fst = metadataKeys :=
  walker_metadata_keys sampleCfg [stageMissing, stageOk] goodFileRecord
    (Or.inl (by decide))

/-! ## Batch extraction -/

/-- Whether opening this batch file's workbook failed. -/
def OpenOutcome.isFailure : OpenOutcome → Bool
  | .opened _ => false
  | .failed _ => true

theorem batch_extract_cons (table : List CellReferenceEntry)
    (bf : BatchFile) (rest : List BatchFile) :
    batch_extract table (bf :: rest) =
      match bf.outcome with
      | .opened wb =>
        ((bf.path, extract wb table) :: (batch_extract table rest).1,
         (batch_extract table rest).2)
      | .failed cause =>
        ((batch_extract table rest).1,
         ⟨bf.path, cause⟩ :: (batch_extract table rest).2) :=
  rfl

/-- C4: over a batch of N files of which M fail to open, extraction returns
exactly N−M successes and M failures; each failure names a file of the batch
that failed with that cause; and a failing file leaves the processing of the
remaining files untouched. -/
theorem batchExtract_partition (table : List CellReferenceEntry)
    (files rest : List BatchFile) (bf : BatchFile) (cause : String) :
    ((batch_extract table files).1.length +
        (batch_extract table files).2.length = files.length) ∧
    ((batch_extract table files).2.length =
      (files.filter fun x => x.outcome.isFailure).length) ∧
    ((batch_extract table files).1.length =
      files.length - (files.filter fun x => x.outcome.isFailure).length) ∧
    (∀ fl ∈ (batch_extract table files).2,
      ∃ x ∈ files, x.path = fl.path ∧ x.outcome.isFailure = true) ∧
    (bf.outcome = .failed cause →
      batch_extract table (bf :: rest) =
        ((batch_extract table rest).1,
         ⟨bf.path, cause⟩ :: (batch_extract table rest).2)) := by
  have key : ∀ fs : List BatchFile,
      ((batch_extract table fs).1.length +
          (batch_extract table fs).2.length = fs.length) ∧
      ((batch_extract table fs).2.length =
        (fs.filter fun x => x.outcome.isFailure).length) ∧
      (∀ fl ∈ (batch_extract table fs).2,
        ∃ x ∈ fs, x.path = fl.path ∧ x.outcome.isFailure = true) := by
    intro fs
    induction fs with
    | nil => exact ⟨rfl, rfl, by simp [batch_extract]⟩
    | cons g gs ih =>
      obtain ⟨ih1, ih2, ih3⟩ := ih
      rw [batch_extract_cons]
      rcases hg : g.outcome with wb | c
      · have hf : (OpenOutcome.opened wb).isFailure = false := rfl
        simp only [hg, List.length_cons, List.filter_cons, hf, if_false]
        refine ⟨by omega, ih2, ?_⟩
        intro fl hfl
        obtain ⟨x, hx, hpx, hfx⟩ := ih3 fl hfl
        exact ⟨x, List.mem_cons_of_mem _ hx, hpx, hfx⟩
      · have hf : (OpenOutcome.failed c).isFailure = true := rfl
        simp only [hg, List.length_cons, List.filter_cons, hf, if_true]
        refine ⟨by omega, by simpa using ih2, ?_⟩
        intro fl hfl
        rcases List.mem_cons.mp hfl with h | h
        · exact ⟨g, List.mem_cons_self _ _, by rw [h],
            by simp [hg, OpenOutcome.isFailure]⟩
        · obtain ⟨x, hx, hpx, hfx⟩ := ih3 fl h
          exact ⟨x, List.mem_cons_of_mem _ hx, hpx, hfx⟩
  obtain ⟨k1, k2, k3⟩ := key files
  refine ⟨k1, k2, by omega, k3, ?_⟩
  intro hbf
  rw [batch_extract_cons, hbf]

/-- A two-entry reference table, the second entry pointing at a sheet that
`sampleWb` does not have. -/
def sampleTable : List CellReferenceEntry :=
  [⟨"Year Built", "Summary", "B2", .number⟩,
   ⟨"Occupancy", "Rent Roll", "C3", .number⟩]

/-- A workbook with a `Summary` sheet only. -/
def sampleWb : Workbook :=
  ⟨[("Summary", [("B2", .rawNum 1999)])]⟩

/-- A batch file whose workbook opens. -/
def sampleGoodBatch : BatchFile :=
  ⟨"/deals/a.xlsb", .opened sampleWb⟩

/-- A batch file whose workbook is corrupt. -/
def sampleBadBatch : BatchFile :=
  ⟨"/deals/b.xlsb", .failed "corrupt workbook"⟩

/-- A three-file batch with two open failures. -/
def sampleBatch : List BatchFile :=
  [sampleGoodBatch, sampleBadBatch, ⟨"/deals/c.xlsb", .failed "locked"⟩]

theorem batchExtract_partition_witness :
    (∃ x ∈ sampleBatch, x.path = "/deals/b.xlsb" ∧
      x.outcome.isFailure = true) ∧
    batch_extract sampleTable (sampleBadBatch :: [sampleGoodBatch]) =
      ((batch_extract sampleTable [sampleGoodBatch]).1,
       ⟨"/deals/b.xlsb", "corrupt workbook"⟩ ::
         (batch_extract sampleTable [sampleGoodBatch]).2) :=
  ⟨(batchExtract_partition sampleTable sampleBatch [sampleGoodBatch]
      sampleBadBatch "corrupt workbook").2.2.2.1
      ⟨"/deals/b.xlsb", "corrupt workbook"⟩ (by decide),
   (batchExtract_partition sampleTable [] [sampleGoodBatch]
      sampleBadBatch "corrupt workbook").2.2.2.2 rfl⟩

/-- C5: a reference-table entry whose target sheet is absent from the opened
workbook records `missing` for that field, extraction continues (it is a
total function of the workbook and table), and the record still carries
every field name of the table, in order. -/
theorem extract_missing_sheet (wb : Workbook)
    (table : List CellReferenceEntry) (entry : CellReferenceEntry) (i : Nat)
    (hi : table[i]? = some entry)
    (hs : lookupAssoc wb.sheets entry.sheet = none) :
    ((extract wb table).values.map Prod.fst =
      table.map CellReferenceEntry.field) ∧
    (extract wb table).values[i]? = some (entry.field, CellValue.missing) := by
  constructor
  · simp [extract, List.map_map, Function.comp]
  · simp [extract, List.getElem?_map, hi, extract_field, hs]

theorem extract_missing_sheet_witness :
    ((extract sampleWb sampleTable).values.map Prod.fst =
      sampleTable.map CellReferenceEntry.field) ∧
    (extract sampleWb sampleTable).values[1]? =
      some ("Occupancy", CellValue.missing) :=
  extract_missing_sheet sampleWb sampleTable
    ⟨"Occupancy", "Rent Roll", "C3", .number⟩ 1 rfl rfl

/-! ## Column reconciliation: round trip and idempotence -/

/-- C7: on every row of the explicit lookup table — the historical
`"Propety"` misspelling included — the two translations are exact inverses:
storage → canonical → storage and canonical → storage → canonical both
return to the starting name. -/
theorem columnMap_roundTrip (p : String × String)
    (hp : p ∈ column_name_map) :
    to_storage_name (to_canonical_name p.2) = p.2 ∧
    to_canonical_name (to_storage_name p.1) = p.1 := by
  fin_cases hp <;> decide

theorem columnMap_roundTrip_witness :
    to_storage_name (to_canonical_name "propety_name") = "propety_name" ∧
    to_canonical_name (to_storage_name "Property Name") = "Property Name" :=
  columnMap_roundTrip ("Property Name", "propety_name") (by decide)

/-- A character that can appear in a generated storage name: an ASCII digit,
an ASCII lower-case letter, or the underscore. -/
def storageChar (c : Char) : Prop :=
  (48 ≤ c.toNat ∧ c.toNat ≤ 57) ∨ (97 ≤ c.toNat ∧ c.toNat ≤ 122) ∨ c = '_'

instance (c : Char) : Decidable (storageChar c) := by
  unfold storageChar
  infer_instance

theorem toNat_ofNat_valid (n : Nat) (h : n.isValidChar) :
    (Char.ofNat n).toNat = n := by
  simp [Char.ofNat, Char.ofNatAux, Char.toNat, h, UInt32.toNat,
    BitVec.toNat_ofNatLt]

theorem lowerChar_not_upper (c : Char) :
    ¬ (65 ≤ (lowerChar c).toNat ∧ (lowerChar c).toNat ≤ 90) := by
  unfold lowerChar
  by_cases h : 65 ≤ c.toNat ∧ c.toNat ≤ 90
  · rw [if_pos h]
    rw [toNat_ofNat_valid (c.toNat + 32) (Or.inl (by omega))]
    omega
  · rw [if_neg h]
    omega

theorem mem_fallback_storageChar (s : String) (d : Char)
    (hd : d ∈ (to_storage_fallback s).data) : storageChar d := by
  unfold to_storage_fallback at hd
  have hd' : d ∈ ((s.data.map lowerChar).map
      fun c => if isWsChar c then '_' else c).filter keepChar := hd
  have hk : keepChar d = true := List.of_mem_filter hd'
  have hm : d ∈ ((s.data.map lowerChar).map
      fun c => if isWsChar c then '_' else c) := List.mem_of_mem_filter hd'
  obtain ⟨e, he, hde⟩ := List.mem_map.mp hm
  obtain ⟨c, _, hec⟩ := List.mem_map.mp he
  subst hec
  by_cases hw : isWsChar (lowerChar c) = true
  · rw [hw, if_pos rfl] at hde
    exact Or.inr (Or.inr hde.symm)
  · rw [if_neg hw] at hde
    subst hde
    have hnu := lowerChar_not_upper c
    have hk' := of_decide_eq_true hk
    rcases hk' with h | h | h | h
    · exact Or.inl h
    · exact absurd h hnu
    · exact Or.inr (Or.inl h)
    · exact Or.inr (Or.inr h)

theorem storageChar_fixed {c : Char} (h : storageChar c) :
    lowerChar c = c ∧ isWsChar c = false ∧ keepChar c = true := by
  have h95 : c = '_' → c.toNat = 95 := fun hc => by rw [hc]; rfl
  have hn : (48 ≤ c.toNat ∧ c.toNat ≤ 57) ∨ (97 ≤ c.toNat ∧ c.toNat ≤ 122) ∨
      c.toNat = 95 := by
    rcases h with h | h | h
    · exact Or.inl h
    · exact Or.inr (Or.inl h)
    · exact Or.inr (Or.inr (h95 h))
  refine ⟨?_, ?_, ?_⟩
  · unfold lowerChar
    rw [if_neg (by omega)]
  · rw [isWsChar, decide_eq_false_iff_not]
    rintro (hc | hc | hc | hc) <;> rw [hc] at hn <;> revert hn <;> decide
  · rcases h with h | h | h
    · exact decide_eq_true (Or.inl h)
    · exact decide_eq_true (Or.inr (Or.inr (Or.inl h)))
    · exact decide_eq_true (Or.inr (Or.inr (Or.inr h)))

theorem fallback_of_storage (l : List Char) (h : ∀ d ∈ l, storageChar d) :
    to_storage_fallback (String.mk l) = String.mk l := by
  unfold to_storage_fallback
  have h1 : l.map lowerChar = l := by
    calc l.map lowerChar = l.map id :=
          List.map_congr_left fun d hd => (storageChar_fixed (h d hd)).1
      _ = l := List.map_id l
  have h2 : (l.map fun c => if isWsChar c then '_' else c) = l := by
    calc (l.map fun c => if isWsChar c then '_' else c) = l.map id := by
          refine List.map_congr_left fun d hd => ?_
          rw [(storageChar_fixed (h d hd)).2.1]
          rfl
      _ = l := List.map_id l
  have h3 : l.filter keepChar = l :=
    List.filter_eq_self.mpr fun d hd => (storageChar_fixed (h d hd)).2.2
  show String.mk ((((String.mk l).data.map lowerChar).map
    fun c => if isWsChar c then '_' else c).filter keepChar) = String.mk l
  have hdata : (String.mk l).data = l := rfl
  rw [hdata, h1, h2, h3]

theorem fallback_idem (s : String) :
    to_storage_fallback (to_storage_fallback s) = to_storage_fallback s := by
  have h : String.mk (to_storage_fallback s).data = to_storage_fallback s :=
    rfl
  calc to_storage_fallback (to_storage_fallback s)
      = to_storage_fallback (String.mk (to_storage_fallback s).data) := by
        rw [h]
    _ = String.mk (to_storage_fallback s).data :=
        fallback_of_storage _ (mem_fallback_storageChar s)
    _ = to_storage_fallback s := h

theorem space_not_mem_fallback (s : String) :
    ' ' ∉ (to_storage_fallback s).data := by
  intro hmem
  have := mem_fallback_storageChar s ' ' hmem
  revert this
  decide

theorem fallback_ne_of_space (s k : String) (hk : ' ' ∈ k.data) :
    to_storage_fallback s ≠ k := by
  intro heq
  exact space_not_mem_fallback s (heq ▸ hk)

theorem lookup_fallback_none (x : String) :
    lookupAssoc column_name_map (to_storage_fallback x) = none := by
  have h1 := fallback_ne_of_space x "Property Name" (by decide)
  have h2 := fallback_ne_of_space x "File Name" (by decide)
  have h3 := fallback_ne_of_space x "Absolute File Path" (by decide)
  have h4 := fallback_ne_of_space x "Deal Stage Subdirectory Name" (by decide)
  have h5 := fallback_ne_of_space x "Deal Stage Subdirectory Path" (by decide)
  have h6 := fallback_ne_of_space x "Last Modified Date" (by decide)
  have h7 := fallback_ne_of_space x "File Size in Bytes" (by decide)
  have h8 := fallback_ne_of_space x "Year Built" (by decide)
  simp [column_name_map, lookupAssoc, h1, h2, h3, h4, h5, h6, h7, h8]

theorem lookupAssoc_mem {α : Type} (l : List (String × α)) (x : String)
    (v : α) (h : lookupAssoc l x = some v) : (x, v) ∈ l := by
  induction l with
  | nil => exact absurd h (by simp [lookupAssoc])
  | cons p rest ih =>
    rcases p with ⟨k, w⟩
    unfold lookupAssoc at h
    by_cases hx : x = k
    · rw [if_pos hx] at h
      rw [Option.some_inj] at h
      subst hx
      subst h
      exact List.mem_cons_self _ _
    · rw [if_neg hx] at h
      exact List.mem_cons_of_mem _ (ih h)

theorem storage_values_fixed (p : String × String)
    (hp : p ∈ column_name_map) : to_storage_name p.2 = p.2 := by
  fin_cases hp <;> decide

/-- C8: `to_storage_name` is idempotent on every input — a name resolved
through the explicit table maps to a storage name that is itself a fixed
point, and a name resolved through the generic fallback transform
(lower-case, whitespace to underscores, strip non-alphanumerics except the
underscore) normalizes to a fixed point as well. -/
theorem toStorageName_idem (x : String) :
    to_storage_name (to_storage_name x) = to_storage_name x := by
  rcases h : lookupAssoc column_name_map x with _ | v
  · have hx : to_storage_name x = to_storage_fallback x := by
      unfold to_storage_name
      rw [h]
    rw [hx]
    unfold to_storage_name
    rw [lookup_fallback_none]
    exact fallback_idem x
  · have hx : to_storage_name x = v := by
      unfold to_storage_name
      rw [h]
    rw [hx]
    exact storage_values_fixed (x, v) (lookupAssoc_mem _ _ _ h)
